import Mathlib

/-!
Verification of the presence and call-signaling engine of src/server.py.

The in-memory state of UserManager (connected_users, heartbeats,
pending_signals, active_calls) is embedded as association lists with
Python dict semantics (assignment updates in place, deletion removes the
entry).  Wall-clock reads (datetime.now, time.time) are passed in as
explicit Nat parameters.  The Python truthiness test on a partner id
(None and the empty string are both falsy) is modelled explicitly.
External collaborators (the sqlite DatabaseManager, the websocket
handles) are outside the in-memory state: database call logging is
modelled as an emitted event list, and outbound websocket messages as an
emitted send list.
-/

/-- Python dict lookup: first entry with the given key. -/
def dictGet {α : Type} (l : List (String × α)) (k : String) : Option α :=
  match l with
  | [] => none
  | (k0, v) :: rest => if k0 = k then some v else dictGet rest k

/-- Python dict assignment: update the entry in place if the key is
present, otherwise append the new entry at the end. -/
def dictSet {α : Type} (l : List (String × α)) (k : String) (v : α) :
    List (String × α) :=
  match l with
  | [] => [(k, v)]
  | (k0, v0) :: rest =>
    if k0 = k then (k, v) :: rest else (k0, v0) :: dictSet rest k v

/-- Python dict deletion: remove the entry with the given key, if any. -/
def dictErase {α : Type} (l : List (String × α)) (k : String) :
    List (String × α) :=
  match l with
  | [] => []
  | (k0, v0) :: rest =>
    if k0 = k then rest else (k0, v0) :: dictErase rest k

/-- One entry of UserManager.connected_users (src/server.py, lines
434-443): the per-connection record created by add_connected_user. -/
structure UserEntry where
  username : String
  avatar_url : Option String
  status : String
  in_call_with : Option String
  connected_at : Nat
  last_seen : Nat
  heartbeat : Nat
deriving DecidableEq, Repr

/-- One entry of UserManager.active_calls (src/server.py, lines
576-579): participants and start time of an accepted call. -/
structure CallRecord where
  users : List String
  start_time : Nat
deriving DecidableEq, Repr

/-- A buffered webrtc signal as stored by store_signal (src/server.py,
lines 801-805): sender id and the opaque payload. -/
structure Signal where
  senderId : String
  payload : String
deriving DecidableEq, Repr

/-- A call-log event as emitted to DatabaseManager.log_call
(src/server.py, line 604). -/
structure LogEvent where
  caller_id : String
  callee_id : String
  call_type : String
  duration : Nat
deriving DecidableEq, Repr

/-- The in-memory state of UserManager (src/server.py, lines 415-420). -/
structure ServerState where
  connected_users : List (String × UserEntry)
  heartbeats : List (String × Nat)
  pending_signals : List (String × List Signal)
  active_calls : List (String × CallRecord)
deriving DecidableEq, Repr

/-- The empty in-memory state, as built by the UserManager constructor. -/
def emptyState : ServerState := ⟨[], [], [], []⟩

/-- Python truthiness of an optional string: None and the empty string
are falsy. -/
def pyTruthy : Option String → Bool
  | none => false
  | some s => s ≠ ""

/-- UserManager.update_user_status (src/server.py, lines 479-488): if
the user is connected, overwrite its status, in_call_with and last_seen
and return True; otherwise return False. -/
def update_user_status (s : ServerState) (now : Nat) (user_id : String)
    (status : String) (in_call_with : Option String) : ServerState × Bool :=
  match dictGet s.connected_users user_id with
  | none => (s, false)
  | some u =>
    let u1 := { u with status := status, in_call_with := in_call_with,
                       last_seen := now }
    ({ s with connected_users := dictSet s.connected_users user_id u1 }, true)

/-- UserManager.add_connected_user (src/server.py, lines 430-452):
install a fresh entry for the user (status disponible, no partner),
refresh the heartbeat map and reset the pending-signal buffer to the
empty list; returns the avatar url of the user data. -/
def add_connected_user (s : ServerState) (now tnow : Nat) (user_id : String)
    (username : String) (avatar_url : Option String) :
    ServerState × Option String :=
  let fresh : UserEntry :=
    { username := username, avatar_url := avatar_url,
      status := "disponible", in_call_with := none,
      connected_at := now, last_seen := now, heartbeat := tnow }
  ({ connected_users := dictSet s.connected_users user_id fresh,
     heartbeats := dictSet s.heartbeats user_id tnow,
     pending_signals := dictSet s.pending_signals user_id [],
     active_calls := s.active_calls }, avatar_url)

/-- UserManager.remove_connected_user (src/server.py, lines 454-477):
if the user is connected, release a truthy, still-connected partner to
disponible with no partner, then delete the user from connected_users,
heartbeats and pending_signals and return True; otherwise return False. -/
def remove_connected_user (s : ServerState) (user_id : String) :
    ServerState × Bool :=
  match dictGet s.connected_users user_id with
  | none => (s, false)
  | some u =>
    let s1 :=
      match u.in_call_with with
      | none => s
      | some p =>
        if p = "" then s
        else
          match dictGet s.connected_users p with
          | none => s
          | some pu =>
            let pu1 := { pu with in_call_with := none, status := "disponible" }
            { s with connected_users := dictSet s.connected_users p pu1 }
    ({ connected_users := dictErase s1.connected_users user_id,
       heartbeats := dictErase s1.heartbeats user_id,
       pending_signals := dictErase s1.pending_signals user_id,
       active_calls := s1.active_calls }, true)

/-- UserManager.can_call_user (src/server.py, lines 533-547): both users
connected, distinct, and both with status disponible. -/
def can_call_user (s : ServerState) (caller_id target_id : String) : Bool :=
  match dictGet s.connected_users caller_id,
        dictGet s.connected_users target_id with
  | some cu, some tu =>
    if target_id = caller_id then false
    else if tu.status ≠ "disponible" ∨ cu.status ≠ "disponible" then false
    else true
  | _, _ => false

/-- UserManager.initiate_call (src/server.py, lines 549-558): when
can_call_user holds, set the caller to llamando with the target as
partner and the target to recibiendo_llamada with the caller as
partner, and return True. -/
def initiate_call (s : ServerState) (now : Nat) (caller_id target_id : String) :
    ServerState × Bool :=
  if can_call_user s caller_id target_id then
    let s1 := (update_user_status s now caller_id "llamando" (some target_id)).1
    let s2 := (update_user_status s1 now target_id "recibiendo_llamada"
      (some caller_id)).1
    (s2, true)
  else (s, false)

/-- The canonical active-call key built inline by accept_call and
end_call (src/server.py, lines 575 and 596): the smaller id, an
underscore, the larger id, with Python string min and max. -/
def call_id (a b : String) : String :=
  (if b < a then b else a) ++ "_" ++ (if a < b then b else a)

/-- UserManager.accept_call (src/server.py, lines 560-581): requires the
acceptor to be connected with a truthy, connected partner whose status
is llamando; then sets both to en_llamada with each other as partner,
records the active call under the canonical key, and returns the
partner. -/
def accept_call (s : ServerState) (now : Nat) (user_id : String) :
    ServerState × Option String :=
  match dictGet s.connected_users user_id with
  | none => (s, none)
  | some u =>
    match u.in_call_with with
    | none => (s, none)
    | some p =>
      if p = "" then (s, none)
      else
        match dictGet s.connected_users p with
        | none => (s, none)
        | some pu =>
          if pu.status ≠ "llamando" then (s, none)
          else
            let s1 := (update_user_status s now user_id "en_llamada" (some p)).1
            let s2 := (update_user_status s1 now p "en_llamada" (some user_id)).1
            let rec0 : CallRecord := { users := [user_id, p], start_time := now }
            let ac := dictSet s2.active_calls (call_id user_id p) rec0
            ({ s2 with active_calls := ac }, some p)

/-- UserManager.end_call (src/server.py, lines 583-613): with a truthy,
connected partner, reset both to disponible with no partner, then (only
if the status of the user read back AFTER that reset equals en_llamada)
log the call and delete the active-call record; without such a partner,
reset the user only when its status is en_llamada.  Returns the raw
partner value and the list of emitted log events. -/
def end_call (s : ServerState) (now : Nat) (user_id : String) :
    ServerState × Option String × List LogEvent :=
  match dictGet s.connected_users user_id with
  | none => (s, none, [])
  | some u =>
    match u.in_call_with with
    | none =>
      if u.status = "en_llamada" then
        ((update_user_status s now user_id "disponible" none).1, none, [])
      else (s, none, [])
    | some p =>
      if p ≠ "" ∧ (dictGet s.connected_users p).isSome then
        let s1 := (update_user_status s now user_id "disponible" none).1
        let s2 := (update_user_status s1 now p "disponible" none).1
        match dictGet s2.connected_users user_id with
        | none => (s2, some p, [])
        | some u2 =>
          if u2.status = "en_llamada" then
            match dictGet s2.active_calls (call_id user_id p) with
            | none => (s2, some p, [])
            | some cd =>
              let ac := dictErase s2.active_calls (call_id user_id p)
              let ev : LogEvent :=
                { caller_id := user_id, callee_id := p,
                  call_type := "audio", duration := now - cd.start_time }
              ({ s2 with active_calls := ac }, some p, [ev])
          else (s2, some p, [])
      else
        if u.status = "en_llamada" then
          ((update_user_status s now user_id "disponible" none).1, some p, [])
        else (s, some p, [])

/-- UserManager.decline_call (src/server.py, lines 615-625): with a
truthy, connected partner, reset both to disponible with no partner;
returns the raw partner value. -/
def decline_call (s : ServerState) (now : Nat) (user_id : String) :
    ServerState × Option String :=
  match dictGet s.connected_users user_id with
  | none => (s, none)
  | some u =>
    match u.in_call_with with
    | none => (s, none)
    | some p =>
      if p ≠ "" ∧ (dictGet s.connected_users p).isSome then
        let s1 := (update_user_status s now user_id "disponible" none).1
        let s2 := (update_user_status s1 now p "disponible" none).1
        (s2, some p)
      else (s, some p)

/-- UserManager.store_signal (src/server.py, lines 627-631): append the
signal to the pending buffer of the target, creating the buffer when
absent. -/
def store_signal (s : ServerState) (target_id : String) (sig : Signal) :
    ServerState :=
  match dictGet s.pending_signals target_id with
  | none => { s with pending_signals := dictSet s.pending_signals target_id [sig] }
  | some cur =>
    { s with pending_signals := dictSet s.pending_signals target_id (cur ++ [sig]) }

/-- UserManager.get_pending_signals (src/server.py, lines 633-639):
return a copy of the pending buffer of the user and clear it in place;
an absent buffer yields the empty list. -/
def get_pending_signals (s : ServerState) (user_id : String) :
    ServerState × List Signal :=
  match dictGet s.pending_signals user_id with
  | none => (s, [])
  | some sigs =>
    ({ s with pending_signals := dictSet s.pending_signals user_id [] }, sigs)

/-- The session-start sequence of websocket_handler (src/server.py,
lines 675-691): add_connected_user, then flush the pending signals.
The flushed list is what the handler then sends to the fresh socket. -/
def session_start_flush (s : ServerState) (now tnow : Nat) (user_id : String)
    (username : String) (avatar_url : Option String) :
    ServerState × List Signal :=
  get_pending_signals (add_connected_user s now tnow user_id username avatar_url).1
    user_id

/-- Outbound websocket message shapes relevant to the call_accept
branch of websocket_handler. -/
inductive OutMsg
  | call_accepted (calleeId : String)
  | call_error (message : String)
deriving DecidableEq, Repr

/-- One outbound send of the handler: a direct message to a user, or
the full roster broadcast. -/
inductive Sent
  | toUser (uid : String) (msg : OutMsg)
  | broadcastUserList
deriving DecidableEq, Repr

/-- The call_accept branch of websocket_handler (src/server.py, lines
759-768): run accept_call; when it returns a partner, notify that
partner with call_accepted and broadcast the roster; when it returns
None nothing at all is sent. -/
def handle_call_accept (s : ServerState) (now : Nat) (user_id : String) :
    ServerState × List Sent :=
  match accept_call s now user_id with
  | (s1, some p) =>
    (s1, [Sent.toUser p (OutMsg.call_accepted user_id), Sent.broadcastUserList])
  | (s1, none) => (s1, [])

/-- Decidable check that an outbound batch contains a call_error
addressed to the given user. -/
def sendsCallErrorTo (out : List Sent) (uid : String) : Bool :=
  out.any fun m =>
    match m with
    | Sent.toUser u (OutMsg.call_error _) => u = uid
    | _ => false

/-- The precondition under which accept_call succeeds, read off its
guards (src/server.py, lines 562-570): acceptor connected, truthy
partner, partner connected with status llamando. -/
def accept_precond (s : ServerState) (user_id : String) : Bool :=
  match dictGet s.connected_users user_id with
  | none => false
  | some u =>
    match u.in_call_with with
    | none => false
    | some p =>
      if p = "" then false
      else
        match dictGet s.connected_users p with
        | none => false
        | some pu => pu.status = "llamando"

/-- The avatarColor field of the registered reply (src/server.py, line
685) and the avatar_color field of DatabaseManager.get_all_users
(src/server.py, line 239): both evaluate random.randint(0, 0xFFFFFF),
a fresh draw from the global random generator.  The draw is passed
explicitly as r; the peer id is a parameter only to show that the code
never consults it. -/
def avatarColor (r : Nat) (_user_id : String) : Nat := r % 16777216

/-! Lemmas about the dict operations. -/

theorem dictGet_dictSet_self {α : Type} (l : List (String × α)) (k : String)
    (v : α) : dictGet (dictSet l k v) k = some v := by
  induction l with
  | nil => simp [dictGet, dictSet]
  | cons hd tl ih =>
    obtain ⟨k0, v0⟩ := hd
    by_cases h : k0 = k
    · simp [dictGet, dictSet, h]
    · simp [dictGet, dictSet, h, ih]

theorem dictGet_dictSet_ne {α : Type} (l : List (String × α)) (k k1 : String)
    (v : α) (h : k1 ≠ k) : dictGet (dictSet l k v) k1 = dictGet l k1 := by
  have hne : ¬ (k = k1) := fun e => h (Eq.symm e)
  induction l with
  | nil => simp [dictGet, dictSet, hne]
  | cons hd tl ih =>
    obtain ⟨k0, v0⟩ := hd
    by_cases h0 : k0 = k
    · subst h0
      simp [dictGet, dictSet, hne]
    · by_cases h1 : k0 = k1
      · simp [dictGet, dictSet, h0, h1, h]
      · simp [dictGet, dictSet, h0, h1, ih]

theorem dictGet_dictErase_ne {α : Type} (l : List (String × α)) (k k1 : String)
    (h : k1 ≠ k) : dictGet (dictErase l k) k1 = dictGet l k1 := by
  have hne : ¬ (k = k1) := fun e => h (Eq.symm e)
  induction l with
  | nil => simp [dictErase]
  | cons hd tl ih =>
    obtain ⟨k0, v0⟩ := hd
    by_cases h0 : k0 = k
    · subst h0
      simp [dictGet, dictErase, hne]
    · by_cases h1 : k0 = k1
      · simp [dictGet, dictErase, h0, h1, h]
      · simp [dictGet, dictErase, h0, h1, ih]

theorem dictGet_eq_none_of_not_mem {α : Type} (l : List (String × α))
    (k : String) (h : k ∉ l.map Prod.fst) : dictGet l k = none := by
  induction l with
  | nil => simp [dictGet]
  | cons hd tl ih =>
    obtain ⟨k0, v0⟩ := hd
    simp only [List.map_cons, List.mem_cons, not_or] at h
    have hne : ¬ (k0 = k) := fun e => h.1 (Eq.symm e)
    simp [dictGet, hne, ih h.2]

theorem mem_keys_of_dictGet {α : Type} {l : List (String × α)} {k : String}
    {v : α} (h : dictGet l k = some v) : k ∈ l.map Prod.fst := by
  induction l with
  | nil => simp [dictGet] at h
  | cons hd tl ih =>
    obtain ⟨k0, v0⟩ := hd
    by_cases h0 : k0 = k
    · simp [h0]
    · simp only [dictGet, if_neg h0] at h
      simp [ih h]

theorem dictGet_dictErase_self {α : Type} (l : List (String × α)) (k : String)
    (h : (l.map Prod.fst).Nodup) : dictGet (dictErase l k) k = none := by
  induction l with
  | nil => simp [dictErase, dictGet]
  | cons hd tl ih =>
    obtain ⟨k0, v0⟩ := hd
    simp only [List.map_cons, List.nodup_cons] at h
    by_cases h0 : k0 = k
    · subst h0
      simp only [dictErase, if_pos rfl]
      exact dictGet_eq_none_of_not_mem tl k0 h.1
    · simp [dictGet, dictErase, h0, ih h.2]

theorem dictSet_cons_eq {α : Type} (k : String) (v v0 : α)
    (tl : List (String × α)) : dictSet ((k, v0) :: tl) k v = (k, v) :: tl := by
  simp [dictSet]

theorem dictSet_cons_ne {α : Type} (k k0 : String) (v v0 : α)
    (tl : List (String × α)) (h0 : k0 ≠ k) :
    dictSet ((k0, v0) :: tl) k v = (k0, v0) :: dictSet tl k v := by
  simp [dictSet, h0]

theorem dictErase_cons_eq {α : Type} (k : String) (v0 : α)
    (tl : List (String × α)) : dictErase ((k, v0) :: tl) k = tl := by
  simp [dictErase]

theorem dictErase_cons_ne {α : Type} (k k0 : String) (v0 : α)
    (tl : List (String × α)) (h0 : k0 ≠ k) :
    dictErase ((k0, v0) :: tl) k = (k0, v0) :: dictErase tl k := by
  simp [dictErase, h0]

theorem mem_keys_dictSet {α : Type} (l : List (String × α)) (k k1 : String)
    (v : α) : k1 ∈ (dictSet l k v).map Prod.fst ↔
      k1 ∈ l.map Prod.fst ∨ k1 = k := by
  induction l with
  | nil => simp [dictSet]
  | cons hd tl ih =>
    obtain ⟨k0, v0⟩ := hd
    by_cases h0 : k0 = k
    · subst h0
      rw [dictSet_cons_eq]
      simp only [List.map_cons, List.mem_cons]
      tauto
    · rw [dictSet_cons_ne k k0 v v0 tl h0]
      simp only [List.map_cons, List.mem_cons, ih]
      tauto

theorem nodup_keys_dictSet {α : Type} (l : List (String × α)) (k : String)
    (v : α) (h : (l.map Prod.fst).Nodup) :
    ((dictSet l k v).map Prod.fst).Nodup := by
  induction l with
  | nil => simp [dictSet]
  | cons hd tl ih =>
    obtain ⟨k0, v0⟩ := hd
    rw [List.map_cons, List.nodup_cons] at h
    by_cases h0 : k0 = k
    · subst h0
      rw [dictSet_cons_eq, List.map_cons, List.nodup_cons]
      exact ⟨h.1, h.2⟩
    · rw [dictSet_cons_ne k k0 v v0 tl h0, List.map_cons, List.nodup_cons]
      refine ⟨fun hm => ?_, ih h.2⟩
      rcases (mem_keys_dictSet tl k k0 v).mp hm with hm1 | hm1
      · exact h.1 hm1
      · exact h0 hm1

theorem keys_dictErase_sublist {α : Type} (l : List (String × α)) (k : String) :
    ((dictErase l k).map Prod.fst).Sublist (l.map Prod.fst) := by
  induction l with
  | nil => simp [dictErase]
  | cons hd tl ih =>
    obtain ⟨k0, v0⟩ := hd
    by_cases h0 : k0 = k
    · subst h0
      rw [dictErase_cons_eq, List.map_cons]
      exact List.sublist_cons_self _ _
    · rw [dictErase_cons_ne k k0 v0 tl h0, List.map_cons, List.map_cons]
      exact ih.cons₂ k0

theorem nodup_keys_dictErase {α : Type} (l : List (String × α)) (k : String)
    (h : (l.map Prod.fst).Nodup) : ((dictErase l k).map Prod.fst).Nodup :=
  h.sublist (keys_dictErase_sublist l k)

/-! Lemmas about update_user_status. -/

theorem update_of_absent (s : ServerState) (now : Nat) (u st : String)
    (pid : Option String) (h : dictGet s.connected_users u = none) :
    update_user_status s now u st pid = (s, false) := by
  simp [update_user_status, h]

theorem update_users_eq (s : ServerState) (now : Nat) (u st : String)
    (pid : Option String) (e : UserEntry)
    (h : dictGet s.connected_users u = some e) :
    (update_user_status s now u st pid).1.connected_users =
      dictSet s.connected_users u
        { e with status := st, in_call_with := pid, last_seen := now } := by
  simp [update_user_status, h]

theorem update_get_self (s : ServerState) (now : Nat) (u st : String)
    (pid : Option String) (e : UserEntry)
    (h : dictGet s.connected_users u = some e) :
    dictGet (update_user_status s now u st pid).1.connected_users u =
      some { e with status := st, in_call_with := pid, last_seen := now } := by
  rw [update_users_eq s now u st pid e h, dictGet_dictSet_self]

theorem update_get_ne (s : ServerState) (now : Nat) (u st : String)
    (pid : Option String) (q : String) (hq : q ≠ u) :
    dictGet (update_user_status s now u st pid).1.connected_users q =
      dictGet s.connected_users q := by
  cases h : dictGet s.connected_users u with
  | none => rw [update_of_absent s now u st pid h]
  | some e => rw [update_users_eq s now u st pid e h,
      dictGet_dictSet_ne _ _ _ _ hq]

theorem update_heartbeats (s : ServerState) (now : Nat) (u st : String)
    (pid : Option String) :
    (update_user_status s now u st pid).1.heartbeats = s.heartbeats := by
  cases h : dictGet s.connected_users u <;> simp [update_user_status, h]

theorem update_pending (s : ServerState) (now : Nat) (u st : String)
    (pid : Option String) :
    (update_user_status s now u st pid).1.pending_signals = s.pending_signals := by
  cases h : dictGet s.connected_users u <;> simp [update_user_status, h]

theorem update_active (s : ServerState) (now : Nat) (u st : String)
    (pid : Option String) :
    (update_user_status s now u st pid).1.active_calls = s.active_calls := by
  cases h : dictGet s.connected_users u <;> simp [update_user_status, h]

/-! Concrete states used by witnesses and counterexamples. -/

/-- A connected entry with status disponible and no partner. -/
def entryAvailable (name : String) : UserEntry :=
  { username := name, avatar_url := none, status := "disponible",
    in_call_with := none, connected_at := 0, last_seen := 0, heartbeat := 0 }

/-- A connected entry with status en_llamada and the given partner. -/
def entryInCall (name p : String) : UserEntry :=
  { username := name, avatar_url := none, status := "en_llamada",
    in_call_with := some p, connected_at := 0, last_seen := 0, heartbeat := 0 }

/-- Two users a and b connected and in an accepted call with each other. -/
def sInCall : ServerState :=
  { connected_users := [("a", entryInCall "Alice" "b"), ("b", entryInCall "Bob" "a")],
    heartbeats := [("a", 0), ("b", 0)],
    pending_signals := [("a", []), ("b", [])],
    active_calls := [("a_b", { users := ["a", "b"], start_time := 0 })] }

/-- A single user a connected, disponible, with no partner. -/
def sAvail : ServerState :=
  { connected_users := [("a", entryAvailable "Alice")],
    heartbeats := [("a", 0)],
    pending_signals := [("a", [])],
    active_calls := [] }

/-- Helper: after the two resets performed by the partner branch of
end_call, the entry of the ending user reads status disponible. -/
theorem end_call_reset_status (s : ServerState) (now : Nat) (u p : String)
    (e : UserEntry) (hu : dictGet s.connected_users u = some e) :
    ∃ e2, dictGet (update_user_status (update_user_status s now u "disponible"
        none).1 now p "disponible" none).1.connected_users u = some e2 ∧
      e2.status = "disponible" := by
  have h1 := update_get_self s now u "disponible" none e hu
  by_cases hpu : u = p
  · subst hpu
    have h2 := update_get_self _ now u "disponible" none _ h1
    exact ⟨_, h2, rfl⟩
  · have h2 : dictGet (update_user_status (update_user_status s now u
        "disponible" none).1 now p "disponible" none).1.connected_users u =
        some { e with status := "disponible", in_call_with := none,
                      last_seen := now } := by
      rw [update_get_ne _ now p "disponible" none u hpu]
      exact h1
    exact ⟨_, h2, rfl⟩

/-- C2: the claim is that end_call emits a call-log event exactly when
the status of the ender was en_llamada at the moment of the call.  The
code resets the status of the ender to disponible and only then compares
it against en_llamada, so the comparison is always false: no execution
of end_call ever emits a log event. -/
theorem end_call_never_logs (s : ServerState) (now : Nat) (u : String) :
    (end_call s now u).2.2 = [] := by
  by_cases hu : ∃ e, dictGet s.connected_users u = some e
  case neg =>
    have hnone : dictGet s.connected_users u = none := by
      cases h : dictGet s.connected_users u
      · rfl
      · exact absurd ⟨_, h⟩ hu
    simp [end_call, hnone]
  case pos =>
    obtain ⟨e, hu⟩ := hu
    cases hp : e.in_call_with with
    | none =>
      by_cases hst : e.status = "en_llamada" <;> simp [end_call, hu, hp, hst]
    | some p =>
      by_cases hcond : p ≠ "" ∧ (dictGet s.connected_users p).isSome
      · obtain ⟨e2, he2, hst2⟩ := end_call_reset_status s now u p e hu
        have hne : ¬ (e2.status = "en_llamada") := by
          rw [hst2]; decide
        simp [end_call, hu, hp, hcond, he2, hne]
      · by_cases hst : e.status = "en_llamada" <;>
          simp [end_call, hu, hp, hcond, hst]

/-- C3: the claim is that signals buffered for an unreachable peer are
delivered on its next session start.  add_connected_user overwrites the
pending buffer of the connecting user with the empty list before the
handler flushes it, so the session-start flush always delivers nothing,
whatever was buffered. -/
theorem session_start_flush_always_empty (s : ServerState) (now tnow : Nat)
    (uid username : String) (avatar : Option String) :
    (session_start_flush s now tnow uid username avatar).2 = [] := by
  simp [session_start_flush, add_connected_user, get_pending_signals,
    dictGet_dictSet_self]

/-- C1 counterexample: with a and b in a mutual call, a setStatus on a
that moves its partnerId away from b leaves b untouched: b keeps status
en_llamada and partner a, instead of being reset to disponible with no
partner as the claim states. -/
theorem update_user_status_no_partner_release_cex :
    dictGet (update_user_status sInCall 5 "a" "disponible" none).1.connected_users
        "b" = some (entryInCall "Bob" "a") ∧
      (entryInCall "Bob" "a").status ≠ "disponible" ∧
      (entryInCall "Bob" "a").in_call_with ≠ none := by decide

/-- C1 as amended: update_user_status mutates only the entry of the
named user; every other entry and the heartbeat, pending-signal and
active-call tables are untouched.  The partner-release step is instead
performed by remove_connected_user, end_call and decline_call. -/
theorem update_user_status_only_mutates_target (s : ServerState) (now : Nat)
    (u st : String) (pid : Option String) (q : String) (hq : q ≠ u) :
    dictGet (update_user_status s now u st pid).1.connected_users q =
        dictGet s.connected_users q ∧
      (update_user_status s now u st pid).1.heartbeats = s.heartbeats ∧
      (update_user_status s now u st pid).1.pending_signals = s.pending_signals ∧
      (update_user_status s now u st pid).1.active_calls = s.active_calls :=
  ⟨update_get_ne s now u st pid q hq, update_heartbeats s now u st pid,
   update_pending s now u st pid, update_active s now u st pid⟩

/-- C1 witness: the amended statement evaluated at the concrete in-call
state. -/
theorem update_user_status_only_mutates_target_witness :
    dictGet (update_user_status sInCall 5 "a" "disponible" none).1.connected_users
        "b" = dictGet sInCall.connected_users "b" ∧
      (update_user_status sInCall 5 "a" "disponible" none).1.heartbeats =
        sInCall.heartbeats ∧
      (update_user_status sInCall 5 "a" "disponible" none).1.pending_signals =
        sInCall.pending_signals ∧
      (update_user_status sInCall 5 "a" "disponible" none).1.active_calls =
        sInCall.active_calls :=
  update_user_status_only_mutates_target sInCall 5 "a" "disponible" none "b"
    (by decide)

/-- C8 counterexample: the color sent at registration is a fresh draw
from the random generator; two registrations of the same id with
different generator states yield different colors, so the color is not
a deterministic function of the id. -/
theorem avatarColor_not_deterministic_cex :
    avatarColor 0 "alice" ≠ avatarColor 1 "alice" := by decide

/-- C8 as amended: the registration color depends only on the random
draw and ignores the peer id entirely. -/
theorem avatarColor_ignores_id (r : Nat) (a b : String) :
    avatarColor r a = avatarColor r b := rfl

/-- C9: the canonical call id is order independent, so accept_call and
end_call address the same active-call record whichever participant
acts. -/
theorem call_id_comm (a b : String) : call_id a b = call_id b a := by
  unfold call_id
  rcases lt_trichotomy a b with h | h | h
  · simp [h, asymm h]
  · subst h; rfl
  · simp [h, asymm h]

/-- C10: removing an id that is not in the connected-user registry
returns False and leaves the whole in-memory state unchanged. -/
theorem remove_absent_noop (s : ServerState) (u : String)
    (h : dictGet s.connected_users u = none) :
    remove_connected_user s u = (s, false) := by
  simp [remove_connected_user, h]

/-- C10 witness: removing an unknown id from the concrete in-call state. -/
theorem remove_absent_noop_witness :
    remove_connected_user sInCall "zzz" = (sInCall, false) :=
  remove_absent_noop sInCall "zzz" (by decide)

/-- Two users a and b connected, both disponible with no partner. -/
def sTwoAvail : ServerState :=
  { connected_users := [("a", entryAvailable "Alice"), ("b", entryAvailable "Bob")],
    heartbeats := [("a", 0), ("b", 0)],
    pending_signals := [("a", []), ("b", [])],
    active_calls := [] }

/-- C7: for a connected peer that is disponible with no partner,
end_call returns no partner, emits nothing, and leaves the state
unchanged; running it a second time changes nothing either. -/
theorem end_call_idempotent_available (s : ServerState) (now now2 : Nat)
    (u : String) (e : UserEntry) (h : dictGet s.connected_users u = some e)
    (hst : e.status = "disponible") (hp : e.in_call_with = none) :
    end_call s now u = (s, none, []) ∧
      end_call (end_call s now u).1 now2 u = (s, none, []) := by
  have key : ∀ n, end_call s n u = (s, none, []) := by
    intro n
    have hne : ¬ (e.status = "en_llamada") := by rw [hst]; decide
    simp [end_call, h, hp, hne]
  refine ⟨key now, ?_⟩
  rw [key now]
  exact key now2

/-- C7 witness: ending twice from the concrete one-user disponible
state. -/
theorem end_call_idempotent_available_witness :
    end_call sAvail 3 "a" = (sAvail, none, []) ∧
      end_call (end_call sAvail 3 "a").1 4 "a" = (sAvail, none, []) :=
  end_call_idempotent_available sAvail 3 4 "a" (entryAvailable "Alice")
    (by decide) rfl rfl

/-- C5 counterexample: user a is connected with no partner, so the
call_accept precondition fails; the claim says the server replies
call_error to a, but the handler sends nothing at all (and indeed
mutates nothing). -/
theorem call_accept_failure_no_call_error_cex :
    (handle_call_accept sAvail 0 "a").2 = [] ∧
      sendsCallErrorTo (handle_call_accept sAvail 0 "a").2 "a" = false ∧
      (handle_call_accept sAvail 0 "a").1 = sAvail := by decide

/-- C5 as amended: when the call_accept precondition fails, no state is
mutated and no message at all is sent; in particular the requester gets
no call_error (the handler simply falls through, unlike the
call_request branch). -/
theorem call_accept_failure_silent (s : ServerState) (now : Nat) (u : String)
    (h : accept_precond s u = false) :
    handle_call_accept s now u = (s, []) := by
  have hacc : accept_call s now u = (s, none) := by
    cases hu : dictGet s.connected_users u with
    | none => simp [accept_call, hu]
    | some e =>
      cases hp : e.in_call_with with
      | none => simp [accept_call, hu, hp]
      | some p =>
        by_cases hpe : p = ""
        · simp [accept_call, hu, hp, hpe]
        · cases hpp : dictGet s.connected_users p with
          | none => simp [accept_call, hu, hp, hpe, hpp]
          | some pe =>
            have hst : pe.status ≠ "llamando" := by
              simp [accept_precond, hu, hp, hpe, hpp] at h
              exact h
            simp [accept_call, hu, hp, hpe, hpp, hst]
  simp [handle_call_accept, hacc]

/-- C5 witness: the amended statement evaluated at the concrete
no-partner state. -/
theorem call_accept_failure_silent_witness :
    handle_call_accept sAvail 0 "a" = (sAvail, []) :=
  call_accept_failure_silent sAvail 0 "a" (by decide)

/-- The success condition of can_call_user, stated logically. -/
def can_call_spec (s : ServerState) (a b : String) : Prop :=
  b ≠ a ∧ ∃ ea eb, dictGet s.connected_users a = some ea ∧
    dictGet s.connected_users b = some eb ∧
    ea.status = "disponible" ∧ eb.status = "disponible"

theorem can_call_user_iff (s : ServerState) (a b : String) :
    can_call_user s a b = true ↔ can_call_spec s a b := by
  cases ha : dictGet s.connected_users a with
  | none => simp [can_call_user, can_call_spec, ha]
  | some ea =>
    cases hb : dictGet s.connected_users b with
    | none => simp [can_call_user, can_call_spec, ha, hb]
    | some eb =>
      by_cases hab : b = a
      · simp [can_call_user, can_call_spec, ha, hb, hab]
      · by_cases hsa : ea.status = "disponible" <;>
          by_cases hsb : eb.status = "disponible" <;>
            simp [can_call_user, can_call_spec, ha, hb, hab, hsa, hsb]

/-- C6: initiate_call succeeds exactly when caller and target are
distinct, both connected and both disponible, and on success the caller
ends at llamando with the target as partner and the target at
recibiendo_llamada with the caller as partner. -/
theorem initiate_call_correct (s : ServerState) (now : Nat) (a b : String) :
    ((initiate_call s now a b).2 = true ↔ can_call_spec s a b) ∧
      ((initiate_call s now a b).2 = true →
        ∃ ea eb,
          dictGet (initiate_call s now a b).1.connected_users a = some ea ∧
          ea.status = "llamando" ∧ ea.in_call_with = some b ∧
          dictGet (initiate_call s now a b).1.connected_users b = some eb ∧
          eb.status = "recibiendo_llamada" ∧ eb.in_call_with = some a) := by
  constructor
  · rw [← can_call_user_iff]
    by_cases hc : can_call_user s a b = true <;> simp [initiate_call, hc]
  · intro hsucc
    have hc : can_call_user s a b = true := by
      by_contra hcf
      simp [initiate_call, hcf] at hsucc
    obtain ⟨hab, ea, eb, ha, hb, hsa, hsb⟩ := (can_call_user_iff s a b).mp hc
    have husers : (initiate_call s now a b).1 =
        (update_user_status (update_user_status s now a "llamando" (some b)).1
          now b "recibiendo_llamada" (some a)).1 := by
      simp [initiate_call, hc]
    rw [husers]
    have hga : dictGet (update_user_status s now a "llamando"
        (some b)).1.connected_users b = some eb := by
      rw [update_get_ne s now a "llamando" (some b) b hab]
      exact hb
    let ea1 : UserEntry :=
      { ea with status := "llamando", in_call_with := some b, last_seen := now }
    let eb1 : UserEntry :=
      { eb with status := "recibiendo_llamada", in_call_with := some a,
                last_seen := now }
    refine ⟨ea1, eb1, ?_, rfl, rfl, ?_, rfl, rfl⟩
    · rw [update_get_ne _ now b "recibiendo_llamada" (some a) a
        (fun e => hab (Eq.symm e))]
      exact update_get_self s now a "llamando" (some b) ea ha
    · exact update_get_self _ now b "recibiendo_llamada" (some a) eb hga

/-- C6 witness: initiating between the two concrete disponible users. -/
theorem initiate_call_correct_witness :
    (initiate_call sTwoAvail 7 "a" "b").2 = true ∧
      ∃ ea eb,
        dictGet (initiate_call sTwoAvail 7 "a" "b").1.connected_users "a" =
          some ea ∧
        ea.status = "llamando" ∧ ea.in_call_with = some "b" ∧
        dictGet (initiate_call sTwoAvail 7 "a" "b").1.connected_users "b" =
          some eb ∧
        eb.status = "recibiendo_llamada" ∧ eb.in_call_with = some "a" := by
  have h := initiate_call_correct sTwoAvail 7 "a" "b"
  have hspec : can_call_spec sTwoAvail "a" "b" :=
    ⟨by decide, entryAvailable "Alice", entryAvailable "Bob",
     by decide, by decide, rfl, rfl⟩
  have hsucc := h.1.mpr hspec
  exact ⟨hsucc, h.2 hsucc⟩

/-! Development for the symmetry invariant: an invariant on the
connected-user table, preserved by every registry and call operation. -/

/-- The connected-user table mutation performed by update_user_status,
expressed on the table alone. -/
def setStatusU (us : List (String × UserEntry)) (now : Nat) (u st : String)
    (pid : Option String) : List (String × UserEntry) :=
  match dictGet us u with
  | none => us
  | some e =>
    dictSet us u { e with status := st, in_call_with := pid, last_seen := now }

/-- Bridge: update_user_status acts on connected_users as setStatusU. -/
theorem update_cu_eq_setStatusU (s : ServerState) (now : Nat) (u st : String)
    (pid : Option String) :
    (update_user_status s now u st pid).1.connected_users =
      setStatusU s.connected_users now u st pid := by
  cases h : dictGet s.connected_users u <;>
    simp [update_user_status, setStatusU, h]

theorem setStatusU_get_ne (us : List (String × UserEntry)) (now : Nat)
    (u st : String) (pid : Option String) (q : String) (hq : q ≠ u) :
    dictGet (setStatusU us now u st pid) q = dictGet us q := by
  cases h : dictGet us u with
  | none => simp [setStatusU, h]
  | some e => simp [setStatusU, h, dictGet_dictSet_ne _ _ _ _ hq]

theorem setStatusU_get_self (us : List (String × UserEntry)) (now : Nat)
    (u st : String) (pid : Option String) (e : UserEntry)
    (h : dictGet us u = some e) :
    dictGet (setStatusU us now u st pid) u =
      some { e with status := st, in_call_with := pid, last_seen := now } := by
  simp [setStatusU, h, dictGet_dictSet_self]

theorem setStatusU_nodup (us : List (String × UserEntry)) (now : Nat)
    (u st : String) (pid : Option String)
    (h : (us.map Prod.fst).Nodup) :
    ((setStatusU us now u st pid).map Prod.fst).Nodup := by
  cases hg : dictGet us u with
  | none => simpa [setStatusU, hg] using h
  | some e => simp only [setStatusU, hg]; exact nodup_keys_dictSet _ _ _ h

/-- The symmetry invariant on the connected-user table, strengthened
with the auxiliary facts needed for its preservation: keys are unique
and non-empty, partner ids are non-empty, a disponible entry has no
partner, and a non-disponible entry with a partner is pointed back at. -/
structure InvU (us : List (String × UserEntry)) : Prop where
  nodup : (us.map Prod.fst).Nodup
  keys_ne : ∀ k e, dictGet us k = some e → k ≠ ""
  partner_ne : ∀ k e p, dictGet us k = some e → e.in_call_with = some p →
    p ≠ ""
  disp_none : ∀ k e, dictGet us k = some e → e.status = "disponible" →
    e.in_call_with = none
  sym : ∀ k e p, dictGet us k = some e → e.in_call_with = some p →
    e.status ≠ "disponible" →
    ∃ pe, dictGet us p = some pe ∧ pe.in_call_with = some k

theorem invU_nil : InvU [] := by
  refine ⟨?_, ?_, ?_, ?_, ?_⟩
  · simp
  · intro k e h
    simp [dictGet] at h
  · intro k e p h
    simp [dictGet] at h
  · intro k e h
    simp [dictGet] at h
  · intro k e p h
    simp [dictGet] at h

/-- Status of an entry with a partner is not disponible, under InvU. -/
theorem invU_partner_not_disp {us : List (String × UserEntry)} (hinv : InvU us)
    {k : String} {e : UserEntry} {p : String}
    (hk : dictGet us k = some e) (hp : e.in_call_with = some p) :
    e.status ≠ "disponible" := by
  intro hd
  rw [hinv.disp_none k e hk hd] at hp
  exact Option.noConfusion hp

theorem dictGet_inj {α : Type} {l : List (String × α)} {k : String} {v w : α}
    (h1 : dictGet l k = some v) (h2 : dictGet l k = some w) : v = w := by
  rw [h1] at h2
  exact Option.some.inj h2

/-- The entry rewrite performed by update_user_status on the looked-up
entry. -/
def withStatus (e : UserEntry) (st : String) (pid : Option String)
    (n : Nat) : UserEntry :=
  { e with status := st, in_call_with := pid, last_seen := n }

@[simp] theorem withStatus_status (e : UserEntry) (st : String)
    (pid : Option String) (n : Nat) : (withStatus e st pid n).status = st := rfl

@[simp] theorem withStatus_in_call_with (e : UserEntry) (st : String)
    (pid : Option String) (n : Nat) :
    (withStatus e st pid n).in_call_with = pid := rfl

theorem setStatusU_get_self_w (us : List (String × UserEntry)) (now : Nat)
    (u st : String) (pid : Option String) (e : UserEntry)
    (h : dictGet us u = some e) :
    dictGet (setStatusU us now u st pid) u = some (withStatus e st pid now) :=
  setStatusU_get_self us now u st pid e h

/-- Releasing both members of a partnered pair to disponible with no
partner preserves the invariant. -/
theorem invU_pair_reset (us : List (String × UserEntry)) (n1 n2 : Nat)
    (u p : String) (eu : UserEntry) (hu : dictGet us u = some eu)
    (hp : eu.in_call_with = some p) (hinv : InvU us) :
    InvU (setStatusU (setStatusU us n1 u "disponible" none) n2 p
      "disponible" none) := by
  have hstu : eu.status ≠ "disponible" := invU_partner_not_disp hinv hu hp
  obtain ⟨pe, hpe, hpeu⟩ := hinv.sym u eu p hu hp hstu
  have hget1u : dictGet (setStatusU us n1 u "disponible" none) u =
      some (withStatus eu "disponible" none n1) :=
    setStatusU_get_self_w us n1 u _ _ eu hu
  have hother : ∀ q, q ≠ u → q ≠ p →
      dictGet (setStatusU (setStatusU us n1 u "disponible" none) n2 p
        "disponible" none) q = dictGet us q := by
    intro q hqu hqp
    rw [setStatusU_get_ne _ _ _ _ _ _ hqp, setStatusU_get_ne _ _ _ _ _ _ hqu]
  have hgetp : ∃ e2, dictGet (setStatusU (setStatusU us n1 u "disponible"
      none) n2 p "disponible" none) p = some e2 ∧
      e2.status = "disponible" ∧ e2.in_call_with = none := by
    by_cases hpu : p = u
    · subst hpu
      exact ⟨_, setStatusU_get_self _ n2 p _ _ _ hget1u, rfl, rfl⟩
    · have hg1 : dictGet (setStatusU us n1 u "disponible" none) p =
          some pe := by
        rw [setStatusU_get_ne _ _ _ _ _ _ hpu]
        exact hpe
      exact ⟨_, setStatusU_get_self _ n2 p _ _ _ hg1, rfl, rfl⟩
  have hgetu : ∃ e2, dictGet (setStatusU (setStatusU us n1 u "disponible"
      none) n2 p "disponible" none) u = some e2 ∧
      e2.status = "disponible" ∧ e2.in_call_with = none := by
    by_cases hpu : u = p
    · subst hpu
      exact hgetp
    · have hg2 : dictGet (setStatusU (setStatusU us n1 u "disponible" none)
          n2 p "disponible" none) u =
          some (withStatus eu "disponible" none n1) := by
        rw [setStatusU_get_ne _ _ _ _ _ _ hpu]
        exact hget1u
      exact ⟨_, hg2, rfl, rfl⟩
  have hdesc : ∀ k e, dictGet (setStatusU (setStatusU us n1 u "disponible"
      none) n2 p "disponible" none) k = some e →
      (k ≠ u ∧ k ≠ p ∧ dictGet us k = some e) ∨
      (e.status = "disponible" ∧ e.in_call_with = none ∧ (k = u ∨ k = p)) := by
    intro k e hk
    by_cases hku : k = u
    · subst hku
      obtain ⟨e2, he2, hst2, hic2⟩ := hgetu
      have : e = e2 := dictGet_inj hk he2
      subst this
      exact Or.inr ⟨hst2, hic2, Or.inl rfl⟩
    · by_cases hkp : k = p
      · subst hkp
        obtain ⟨e2, he2, hst2, hic2⟩ := hgetp
        have : e = e2 := dictGet_inj hk he2
        subst this
        exact Or.inr ⟨hst2, hic2, Or.inr rfl⟩
      · rw [hother k hku hkp] at hk
        exact Or.inl ⟨hku, hkp, hk⟩
  refine ⟨?_, ?_, ?_, ?_, ?_⟩
  · exact setStatusU_nodup _ _ _ _ _ (setStatusU_nodup _ _ _ _ _ hinv.nodup)
  · intro k e hk
    rcases hdesc k e hk with ⟨_, _, hk0⟩ | ⟨_, _, hk0 | hk0⟩
    · exact hinv.keys_ne k e hk0
    · exact hk0 ▸ hinv.keys_ne u eu hu
    · exact hk0 ▸ hinv.keys_ne p pe hpe
  · intro k e q hk hq
    rcases hdesc k e hk with ⟨_, _, hk0⟩ | ⟨_, hic, _⟩
    · exact hinv.partner_ne k e q hk0 hq
    · rw [hic] at hq
      exact absurd hq (by simp)
  · intro k e hk hdisp
    rcases hdesc k e hk with ⟨_, _, hk0⟩ | ⟨_, hic, _⟩
    · exact hinv.disp_none k e hk0 hdisp
    · exact hic
  · intro k e q hk hq hst
    rcases hdesc k e hk with ⟨hku, hkp, hk0⟩ | ⟨hdisp, _, _⟩
    · obtain ⟨qe, hqe, hqk⟩ := hinv.sym k e q hk0 hq hst
      have hqu : q ≠ u := by
        intro hq0
        subst hq0
        have : qe = eu := dictGet_inj hqe hu
        subst this
        rw [hp] at hqk
        exact hkp (Option.some.inj hqk).symm
      have hqp : q ≠ p := by
        intro hq0
        subst hq0
        have : qe = pe := dictGet_inj hqe hpe
        subst this
        rw [hpeu] at hqk
        exact hku (Option.some.inj hqk).symm
      refine ⟨qe, ?_, hqk⟩
      rw [hother q hqu hqp]
      exact hqe
    · exact absurd hdisp hst

/-- Resetting to disponible a user that already has no partner
preserves the invariant. -/
theorem invU_single_reset (us : List (String × UserEntry)) (n : Nat)
    (u : String) (eu : UserEntry) (hu : dictGet us u = some eu)
    (hic : eu.in_call_with = none) (hinv : InvU us) :
    InvU (setStatusU us n u "disponible" none) := by
  have hgu : dictGet (setStatusU us n u "disponible" none) u =
      some (withStatus eu "disponible" none n) :=
    setStatusU_get_self_w us n u _ _ eu hu
  have hdesc : ∀ k e, dictGet (setStatusU us n u "disponible" none) k =
      some e → (k ≠ u ∧ dictGet us k = some e) ∨
      (k = u ∧ e.status = "disponible" ∧ e.in_call_with = none) := by
    intro k e hk
    by_cases hku : k = u
    · subst hku
      have : e = withStatus eu "disponible" none n := dictGet_inj hk hgu
      subst this
      exact Or.inr ⟨rfl, rfl, rfl⟩
    · rw [setStatusU_get_ne _ _ _ _ _ _ hku] at hk
      exact Or.inl ⟨hku, hk⟩
  refine ⟨setStatusU_nodup _ _ _ _ _ hinv.nodup, ?_, ?_, ?_, ?_⟩
  · intro k e hk
    rcases hdesc k e hk with ⟨_, hk0⟩ | ⟨hk0, _, _⟩
    · exact hinv.keys_ne k e hk0
    · exact hk0 ▸ hinv.keys_ne u eu hu
  · intro k e q hk hq
    rcases hdesc k e hk with ⟨_, hk0⟩ | ⟨_, _, hic2⟩
    · exact hinv.partner_ne k e q hk0 hq
    · rw [hic2] at hq
      exact absurd hq (by simp)
  · intro k e hk hdisp
    rcases hdesc k e hk with ⟨_, hk0⟩ | ⟨_, _, hic2⟩
    · exact hinv.disp_none k e hk0 hdisp
    · exact hic2
  · intro k e q hk hq hst
    rcases hdesc k e hk with ⟨hku, hk0⟩ | ⟨_, _, hic2⟩
    · obtain ⟨qe, hqe, hqk⟩ := hinv.sym k e q hk0 hq hst
      have hqu : q ≠ u := by
        intro hq0
        subst hq0
        have : qe = eu := dictGet_inj hqe hu
        subst this
        rw [hic] at hqk
        exact Option.noConfusion hqk
      refine ⟨qe, ?_, hqk⟩
      rw [setStatusU_get_ne _ _ _ _ _ _ hqu]
      exact hqe
    · rw [hic2] at hq
      exact absurd hq (by simp)

/-- Setting two present users to a mutual partnered pair with
non-disponible statuses preserves the invariant, provided no third
party points at either of them. -/
theorem invU_pair_set (us : List (String × UserEntry)) (n1 n2 : Nat)
    (u p stu stp : String) (hstu : stu ≠ "disponible")
    (hstp : stp ≠ "disponible") (eu pu : UserEntry)
    (hu : dictGet us u = some eu) (hp0 : dictGet us p = some pu)
    (hthird : ∀ k e, dictGet us k = some e → e.status ≠ "disponible" →
      (e.in_call_with = some u → k = p) ∧ (e.in_call_with = some p → k = u))
    (hinv : InvU us) :
    InvU (setStatusU (setStatusU us n1 u stu (some p)) n2 p stp (some u)) := by
  have hg2u : ∃ eu2, dictGet (setStatusU (setStatusU us n1 u stu (some p))
      n2 p stp (some u)) u = some eu2 ∧ eu2.in_call_with = some p ∧
      (eu2.status = stu ∨ eu2.status = stp) := by
    by_cases hpu : p = u
    · subst hpu
      have hg1 : dictGet (setStatusU us n1 p stu (some p)) p =
          some (withStatus eu stu (some p) n1) :=
        setStatusU_get_self_w us n1 p _ _ eu hu
      exact ⟨_, setStatusU_get_self_w _ n2 p _ _ _ hg1, rfl, Or.inr rfl⟩
    · have hg2 : dictGet (setStatusU (setStatusU us n1 u stu (some p))
          n2 p stp (some u)) u = some (withStatus eu stu (some p) n1) := by
        rw [setStatusU_get_ne _ _ _ _ _ _ (fun e => hpu (Eq.symm e))]
        exact setStatusU_get_self_w us n1 u _ _ eu hu
      exact ⟨_, hg2, rfl, Or.inl rfl⟩
  have hg2p : ∃ pu2, dictGet (setStatusU (setStatusU us n1 u stu (some p))
      n2 p stp (some u)) p = some pu2 ∧ pu2.in_call_with = some u ∧
      pu2.status = stp := by
    by_cases hpu : p = u
    · subst hpu
      have hg1 : dictGet (setStatusU us n1 p stu (some p)) p =
          some (withStatus eu stu (some p) n1) :=
        setStatusU_get_self_w us n1 p _ _ eu hu
      exact ⟨_, setStatusU_get_self_w _ n2 p _ _ _ hg1, rfl, rfl⟩
    · have hg1 : dictGet (setStatusU us n1 u stu (some p)) p = some pu := by
        rw [setStatusU_get_ne _ _ _ _ _ _ hpu]
        exact hp0
      exact ⟨_, setStatusU_get_self_w _ n2 p _ _ _ hg1, rfl, rfl⟩
  obtain ⟨eu2, hgu, hicu, hstu2⟩ := hg2u
  obtain ⟨pu2, hgp, hicp, hstp2⟩ := hg2p
  have hother : ∀ q, q ≠ u → q ≠ p →
      dictGet (setStatusU (setStatusU us n1 u stu (some p)) n2 p stp
        (some u)) q = dictGet us q := by
    intro q hqu hqp
    rw [setStatusU_get_ne _ _ _ _ _ _ hqp, setStatusU_get_ne _ _ _ _ _ _ hqu]
  have hdesc : ∀ k e, dictGet (setStatusU (setStatusU us n1 u stu (some p))
      n2 p stp (some u)) k = some e →
      (k ≠ u ∧ k ≠ p ∧ dictGet us k = some e) ∨
      ((e.status = stu ∨ e.status = stp) ∧
        ((k = u ∧ e.in_call_with = some p) ∨
         (k = p ∧ e.in_call_with = some u))) := by
    intro k e hk
    by_cases hku : k = u
    · subst hku
      have : e = eu2 := dictGet_inj hk hgu
      subst this
      exact Or.inr ⟨hstu2, Or.inl ⟨rfl, hicu⟩⟩
    · by_cases hkp : k = p
      · subst hkp
        have : e = pu2 := dictGet_inj hk hgp
        subst this
        exact Or.inr ⟨Or.inr hstp2, Or.inr ⟨rfl, hicp⟩⟩
      · rw [hother k hku hkp] at hk
        exact Or.inl ⟨hku, hkp, hk⟩
  refine ⟨?_, ?_, ?_, ?_, ?_⟩
  · exact setStatusU_nodup _ _ _ _ _ (setStatusU_nodup _ _ _ _ _ hinv.nodup)
  · intro k e hk
    rcases hdesc k e hk with ⟨_, _, hk0⟩ | ⟨_, ⟨hk0, _⟩ | ⟨hk0, _⟩⟩
    · exact hinv.keys_ne k e hk0
    · exact hk0 ▸ hinv.keys_ne u eu hu
    · exact hk0 ▸ hinv.keys_ne p pu hp0
  · intro k e q hk hq
    rcases hdesc k e hk with ⟨_, _, hk0⟩ | ⟨_, ⟨_, hic⟩ | ⟨_, hic⟩⟩
    · exact hinv.partner_ne k e q hk0 hq
    · rw [hic] at hq
      exact (Option.some.inj hq) ▸ hinv.keys_ne p pu hp0
    · rw [hic] at hq
      exact (Option.some.inj hq) ▸ hinv.keys_ne u eu hu
  · intro k e hk hdisp
    rcases hdesc k e hk with ⟨_, _, hk0⟩ | ⟨hst0 | hst0, _⟩
    · exact hinv.disp_none k e hk0 hdisp
    · rw [hdisp] at hst0
      exact absurd hst0.symm hstu
    · rw [hdisp] at hst0
      exact absurd hst0.symm hstp
  · intro k e q hk hq hst
    rcases hdesc k e hk with ⟨hku, hkp, hk0⟩ | ⟨_, ⟨hk0, hic⟩ | ⟨hk0, hic⟩⟩
    · obtain ⟨qe, hqe, hqk⟩ := hinv.sym k e q hk0 hq hst
      have hqu : q ≠ u := by
        intro hq0
        subst hq0
        exact hkp ((hthird k e hk0 hst).1 hq)
      have hqp : q ≠ p := by
        intro hq0
        subst hq0
        exact hku ((hthird k e hk0 hst).2 hq)
      refine ⟨qe, ?_, hqk⟩
      rw [hother q hqu hqp]
      exact hqe
    · have hq2 : q = p := by
        rw [hic] at hq
        exact (Option.some.inj hq).symm
      subst hq2
      subst hk0
      exact ⟨pu2, hgp, hicp⟩
    · have hq2 : q = u := by
        rw [hic] at hq
        exact (Option.some.inj hq).symm
      subst hq2
      subst hk0
      exact ⟨eu2, hgu, hicu⟩

/-- Installing a fresh entry with no partner under a key that is absent
and non-empty preserves the invariant. -/
theorem invU_set_fresh (us : List (String × UserEntry)) (u : String)
    (f : UserEntry) (hne : u ≠ "") (hfresh : dictGet us u = none)
    (hic : f.in_call_with = none) (hinv : InvU us) :
    InvU (dictSet us u f) := by
  have hdesc : ∀ k e, dictGet (dictSet us u f) k = some e →
      (k ≠ u ∧ dictGet us k = some e) ∨ (k = u ∧ e = f) := by
    intro k e hk
    by_cases hku : k = u
    · subst hku
      rw [dictGet_dictSet_self] at hk
      exact Or.inr ⟨rfl, (Option.some.inj hk).symm⟩
    · rw [dictGet_dictSet_ne _ _ _ _ hku] at hk
      exact Or.inl ⟨hku, hk⟩
  refine ⟨nodup_keys_dictSet _ _ _ hinv.nodup, ?_, ?_, ?_, ?_⟩
  · intro k e hk
    rcases hdesc k e hk with ⟨_, hk0⟩ | ⟨hk0, _⟩
    · exact hinv.keys_ne k e hk0
    · exact hk0 ▸ hne
  · intro k e q hk hq
    rcases hdesc k e hk with ⟨_, hk0⟩ | ⟨_, hef⟩
    · exact hinv.partner_ne k e q hk0 hq
    · rw [hef, hic] at hq
      exact absurd hq (by simp)
  · intro k e hk hdisp
    rcases hdesc k e hk with ⟨_, hk0⟩ | ⟨_, hef⟩
    · exact hinv.disp_none k e hk0 hdisp
    · rw [hef]
      exact hic
  · intro k e q hk hq hst
    rcases hdesc k e hk with ⟨hku, hk0⟩ | ⟨_, hef⟩
    · obtain ⟨qe, hqe, hqk⟩ := hinv.sym k e q hk0 hq hst
      have hqu : q ≠ u := by
        intro hq0
        subst hq0
        rw [hqe] at hfresh
        exact Option.noConfusion hfresh
      refine ⟨qe, ?_, hqk⟩
      rw [dictGet_dictSet_ne _ _ _ _ hqu]
      exact hqe
    · rw [hef, hic] at hq
      exact absurd hq (by simp)

/-- Deleting a user whose entry has no partner preserves the
invariant. -/
theorem invU_erase_nopartner (us : List (String × UserEntry)) (u : String)
    (eu : UserEntry) (hu : dictGet us u = some eu)
    (hic : eu.in_call_with = none) (hinv : InvU us) :
    InvU (dictErase us u) := by
  have hnone : dictGet (dictErase us u) u = none :=
    dictGet_dictErase_self us u hinv.nodup
  have hdesc : ∀ k e, dictGet (dictErase us u) k = some e →
      k ≠ u ∧ dictGet us k = some e := by
    intro k e hk
    by_cases hku : k = u
    · subst hku
      rw [hnone] at hk
      exact Option.noConfusion hk
    · rw [dictGet_dictErase_ne _ _ _ hku] at hk
      exact ⟨hku, hk⟩
  refine ⟨nodup_keys_dictErase _ _ hinv.nodup, ?_, ?_, ?_, ?_⟩
  · intro k e hk
    exact hinv.keys_ne k e (hdesc k e hk).2
  · intro k e q hk hq
    exact hinv.partner_ne k e q (hdesc k e hk).2 hq
  · intro k e hk hdisp
    exact hinv.disp_none k e (hdesc k e hk).2 hdisp
  · intro k e q hk hq hst
    obtain ⟨hku, hk0⟩ := hdesc k e hk
    obtain ⟨qe, hqe, hqk⟩ := hinv.sym k e q hk0 hq hst
    have hqu : q ≠ u := by
      intro hq0
      subst hq0
      have : qe = eu := dictGet_inj hqe hu
      subst this
      rw [hic] at hqk
      exact Option.noConfusion hqk
    refine ⟨qe, ?_, hqk⟩
    rw [dictGet_dictErase_ne _ _ _ hqu]
    exact hqe

/-- The partner-release rewrite performed by remove_connected_user on
the partner entry (status and partner cleared, everything else kept). -/
def releasedEntry (e : UserEntry) : UserEntry :=
  { e with in_call_with := none, status := "disponible" }

/-- Releasing the partner of a user and then deleting the user
preserves the invariant. -/
theorem invU_release_then_erase (us : List (String × UserEntry)) (u p : String)
    (eu pe : UserEntry) (hu : dictGet us u = some eu)
    (hic : eu.in_call_with = some p) (hpe : dictGet us p = some pe)
    (hinv : InvU us) :
    InvU (dictErase (dictSet us p (releasedEntry pe)) u) := by
  have hstu : eu.status ≠ "disponible" := invU_partner_not_disp hinv hu hic
  obtain ⟨pe2, hpe2, hpeu⟩ := hinv.sym u eu p hu hic hstu
  have hpe2eq : pe2 = pe := dictGet_inj hpe2 hpe
  rw [hpe2eq] at hpeu
  have hnodup1 : ((dictSet us p (releasedEntry pe)).map Prod.fst).Nodup :=
    nodup_keys_dictSet _ _ _ hinv.nodup
  have hnone : dictGet (dictErase (dictSet us p (releasedEntry pe)) u) u =
      none :=
    dictGet_dictErase_self _ u hnodup1
  have hdesc : ∀ k e, dictGet (dictErase (dictSet us p (releasedEntry pe)) u)
      k = some e → k ≠ u ∧
      ((k = p ∧ e.in_call_with = none ∧ e.status = "disponible") ∨
       (k ≠ p ∧ dictGet us k = some e)) := by
    intro k e hk
    by_cases hku : k = u
    · subst hku
      rw [hnone] at hk
      exact Option.noConfusion hk
    · rw [dictGet_dictErase_ne _ _ _ hku] at hk
      refine ⟨hku, ?_⟩
      by_cases hkp : k = p
      · subst hkp
        rw [dictGet_dictSet_self] at hk
        have he : e = releasedEntry pe := (Option.some.inj hk).symm
        rw [he]
        exact Or.inl ⟨rfl, rfl, rfl⟩
      · rw [dictGet_dictSet_ne _ _ _ _ hkp] at hk
        exact Or.inr ⟨hkp, hk⟩
  refine ⟨nodup_keys_dictErase _ _ hnodup1, ?_, ?_, ?_, ?_⟩
  · intro k e hk
    rcases (hdesc k e hk).2 with ⟨hk0, _, _⟩ | ⟨_, hk0⟩
    · exact hk0 ▸ hinv.keys_ne p pe hpe
    · exact hinv.keys_ne k e hk0
  · intro k e q hk hq
    rcases (hdesc k e hk).2 with ⟨_, hic2, _⟩ | ⟨_, hk0⟩
    · rw [hic2] at hq
      exact absurd hq (by simp)
    · exact hinv.partner_ne k e q hk0 hq
  · intro k e hk hdisp
    rcases (hdesc k e hk).2 with ⟨_, hic2, _⟩ | ⟨_, hk0⟩
    · exact hic2
    · exact hinv.disp_none k e hk0 hdisp
  · intro k e q hk hq hst
    obtain ⟨hku, hrest⟩ := hdesc k e hk
    rcases hrest with ⟨_, hic2, _⟩ | ⟨hkp, hk0⟩
    · rw [hic2] at hq
      exact absurd hq (by simp)
    · obtain ⟨qe, hqe, hqk⟩ := hinv.sym k e q hk0 hq hst
      have hqu : q ≠ u := by
        intro hq0
        subst hq0
        have : qe = eu := dictGet_inj hqe hu
        subst this
        rw [hic] at hqk
        exact hkp (Option.some.inj hqk).symm
      have hqp : q ≠ p := by
        intro hq0
        subst hq0
        have : qe = pe := dictGet_inj hqe hpe
        subst this
        rw [hpeu] at hqk
        exact hku (Option.some.inj hqk).symm
      refine ⟨qe, ?_, hqk⟩
      rw [dictGet_dictErase_ne _ _ _ hqu, dictGet_dictSet_ne _ _ _ _ hqp]
      exact hqe

theorem invU_add_op (s : ServerState) (now tnow : Nat) (u username : String)
    (avatar : Option String) (hne : u ≠ "")
    (hfresh : dictGet s.connected_users u = none)
    (hinv : InvU s.connected_users) :
    InvU (add_connected_user s now tnow u username avatar).1.connected_users :=
  invU_set_fresh s.connected_users u _ hne hfresh rfl hinv

theorem invU_remove_op (s : ServerState) (u : String)
    (hinv : InvU s.connected_users) :
    InvU (remove_connected_user s u).1.connected_users := by
  cases hu : dictGet s.connected_users u with
  | none =>
    have h1 : remove_connected_user s u = (s, false) := by
      simp [remove_connected_user, hu]
    rw [h1]
    exact hinv
  | some eu =>
    cases hic : eu.in_call_with with
    | none =>
      have hcu : (remove_connected_user s u).1.connected_users =
          dictErase s.connected_users u := by
        simp [remove_connected_user, hu, hic]
      rw [hcu]
      exact invU_erase_nopartner s.connected_users u eu hu hic hinv
    | some p =>
      have hpne : p ≠ "" := hinv.partner_ne u eu p hu hic
      have hstu : eu.status ≠ "disponible" := invU_partner_not_disp hinv hu hic
      obtain ⟨pe, hpe, hpeu⟩ := hinv.sym u eu p hu hic hstu
      have hcu : (remove_connected_user s u).1.connected_users =
          dictErase (dictSet s.connected_users p (releasedEntry pe)) u := by
        simp [remove_connected_user, hu, hic, hpne, hpe, releasedEntry]
      rw [hcu]
      exact invU_release_then_erase s.connected_users u p eu pe hu hic hpe hinv

theorem invU_initiate_op (s : ServerState) (now : Nat) (a b : String)
    (hinv : InvU s.connected_users) :
    InvU (initiate_call s now a b).1.connected_users := by
  by_cases hc : can_call_user s a b = true
  · obtain ⟨hab, ea, eb, ha, hb, hsa, hsb⟩ := (can_call_user_iff s a b).mp hc
    have hea : ea.in_call_with = none := hinv.disp_none a ea ha hsa
    have heb : eb.in_call_with = none := hinv.disp_none b eb hb hsb
    have hcu : (initiate_call s now a b).1.connected_users =
        setStatusU (setStatusU s.connected_users now a "llamando" (some b))
          now b "recibiendo_llamada" (some a) := by
      simp [initiate_call, hc, update_cu_eq_setStatusU]
    rw [hcu]
    refine invU_pair_set s.connected_users now now a b "llamando"
      "recibiendo_llamada" (by decide) (by decide) ea eb ha hb ?_ hinv
    intro k e hk hst
    constructor
    · intro hq
      obtain ⟨qe, hqe, hqk⟩ := hinv.sym k e a hk hq hst
      have hq2 : qe = ea := dictGet_inj hqe ha
      rw [hq2, hea] at hqk
      exact absurd hqk (by simp)
    · intro hq
      obtain ⟨qe, hqe, hqk⟩ := hinv.sym k e b hk hq hst
      have hq2 : qe = eb := dictGet_inj hqe hb
      rw [hq2, heb] at hqk
      exact absurd hqk (by simp)
  · have h1 : initiate_call s now a b = (s, false) := by
      simp [initiate_call, hc]
    rw [h1]
    exact hinv

theorem invU_accept_op (s : ServerState) (now : Nat) (u : String)
    (hinv : InvU s.connected_users) :
    InvU (accept_call s now u).1.connected_users := by
  cases hu : dictGet s.connected_users u with
  | none =>
    have h1 : accept_call s now u = (s, none) := by simp [accept_call, hu]
    rw [h1]
    exact hinv
  | some eu =>
    cases hic : eu.in_call_with with
    | none =>
      have h1 : accept_call s now u = (s, none) := by
        simp [accept_call, hu, hic]
      rw [h1]
      exact hinv
    | some p =>
      by_cases hpe0 : p = ""
      · have h1 : accept_call s now u = (s, none) := by
          simp [accept_call, hu, hic, hpe0]
        rw [h1]
        exact hinv
      · cases hpp : dictGet s.connected_users p with
        | none =>
          have h1 : accept_call s now u = (s, none) := by
            simp [accept_call, hu, hic, hpe0, hpp]
          rw [h1]
          exact hinv
        | some pu =>
          by_cases hll : pu.status = "llamando"
          · have hstu : eu.status ≠ "disponible" :=
              invU_partner_not_disp hinv hu hic
            obtain ⟨pe2, hpe2, hpeu⟩ := hinv.sym u eu p hu hic hstu
            have hpe2eq : pe2 = pu := dictGet_inj hpe2 hpp
            rw [hpe2eq] at hpeu
            have hcu : (accept_call s now u).1.connected_users =
                setStatusU (setStatusU s.connected_users now u "en_llamada"
                  (some p)) now p "en_llamada" (some u) := by
              simp [accept_call, hu, hic, hpe0, hpp, hll,
                update_cu_eq_setStatusU]
            rw [hcu]
            refine invU_pair_set s.connected_users now now u p "en_llamada"
              "en_llamada" (by decide) (by decide) eu pu hu hpp ?_ hinv
            intro k e hk hst
            constructor
            · intro hq
              obtain ⟨qe, hqe, hqk⟩ := hinv.sym k e u hk hq hst
              have hq2 : qe = eu := dictGet_inj hqe hu
              rw [hq2, hic] at hqk
              exact (Option.some.inj hqk).symm
            · intro hq
              obtain ⟨qe, hqe, hqk⟩ := hinv.sym k e p hk hq hst
              have hq2 : qe = pu := dictGet_inj hqe hpp
              rw [hq2, hpeu] at hqk
              exact (Option.some.inj hqk).symm
          · have h1 : accept_call s now u = (s, none) := by
              simp [accept_call, hu, hic, hpe0, hpp, hll]
            rw [h1]
            exact hinv

theorem invU_decline_op (s : ServerState) (now : Nat) (u : String)
    (hinv : InvU s.connected_users) :
    InvU (decline_call s now u).1.connected_users := by
  cases hu : dictGet s.connected_users u with
  | none =>
    have h1 : decline_call s now u = (s, none) := by simp [decline_call, hu]
    rw [h1]
    exact hinv
  | some eu =>
    cases hic : eu.in_call_with with
    | none =>
      have h1 : decline_call s now u = (s, none) := by
        simp [decline_call, hu, hic]
      rw [h1]
      exact hinv
    | some p =>
      have hpne : p ≠ "" := hinv.partner_ne u eu p hu hic
      have hstu : eu.status ≠ "disponible" := invU_partner_not_disp hinv hu hic
      obtain ⟨pe, hpe, hpeu⟩ := hinv.sym u eu p hu hic hstu
      have hcond : p ≠ "" ∧ (dictGet s.connected_users p).isSome :=
        ⟨hpne, by rw [hpe]; rfl⟩
      have hcu : (decline_call s now u).1.connected_users =
          setStatusU (setStatusU s.connected_users now u "disponible" none)
            now p "disponible" none := by
        simp [decline_call, hu, hic, hcond, update_cu_eq_setStatusU]
      rw [hcu]
      exact invU_pair_reset s.connected_users now now u p eu hu hic hinv

theorem invU_end_op (s : ServerState) (now : Nat) (u : String)
    (hinv : InvU s.connected_users) :
    InvU (end_call s now u).1.connected_users := by
  cases hu : dictGet s.connected_users u with
  | none =>
    have h1 : end_call s now u = (s, none, []) := by simp [end_call, hu]
    rw [h1]
    exact hinv
  | some eu =>
    cases hic : eu.in_call_with with
    | none =>
      by_cases hst : eu.status = "en_llamada"
      · have hcu : (end_call s now u).1.connected_users =
            setStatusU s.connected_users now u "disponible" none := by
          simp [end_call, hu, hic, hst, update_cu_eq_setStatusU]
        rw [hcu]
        exact invU_single_reset s.connected_users now u eu hu hic hinv
      · have h1 : end_call s now u = (s, none, []) := by
          simp [end_call, hu, hic, hst]
        rw [h1]
        exact hinv
    | some p =>
      have hpne : p ≠ "" := hinv.partner_ne u eu p hu hic
      have hstu : eu.status ≠ "disponible" := invU_partner_not_disp hinv hu hic
      obtain ⟨pe, hpe, hpeu⟩ := hinv.sym u eu p hu hic hstu
      have hcond : p ≠ "" ∧ (dictGet s.connected_users p).isSome :=
        ⟨hpne, by rw [hpe]; rfl⟩
      have hcu : (end_call s now u).1.connected_users =
          setStatusU (setStatusU s.connected_users now u "disponible" none)
            now p "disponible" none := by
        simp only [end_call, hu, hic]
        rw [if_pos hcond]
        cases hx : dictGet (update_user_status (update_user_status s now u
            "disponible" none).1 now p "disponible" none).1.connected_users
            u with
        | none => simp [update_cu_eq_setStatusU]
        | some u2 =>
          by_cases hst2 : u2.status = "en_llamada"
          · cases hac : dictGet (update_user_status (update_user_status s now
                u "disponible" none).1 now p "disponible"
                none).1.active_calls (call_id u p) with
            | none => simp [hst2, hac, update_cu_eq_setStatusU]
            | some cd => simp [hst2, hac, update_cu_eq_setStatusU]
          · simp [hst2, update_cu_eq_setStatusU]
      rw [hcu]
      exact invU_pair_reset s.connected_users now now u p eu hu hic hinv

/-- States reachable from the empty registry through the registry and
call operations, with add taken exactly as the code allows it: any id,
including one that is already connected (a second connection of the
same user simply overwrites its entry). -/
inductive ReachableAny : ServerState → Prop
  | init : ReachableAny emptyState
  | add (s : ServerState) (now tnow : Nat) (u username : String)
      (avatar : Option String) (h : ReachableAny s) :
      ReachableAny (add_connected_user s now tnow u username avatar).1
  | remove (s : ServerState) (u : String) (h : ReachableAny s) :
      ReachableAny (remove_connected_user s u).1
  | initiate (s : ServerState) (now : Nat) (a b : String)
      (h : ReachableAny s) : ReachableAny (initiate_call s now a b).1
  | accept (s : ServerState) (now : Nat) (u : String) (h : ReachableAny s) :
      ReachableAny (accept_call s now u).1
  | decline (s : ServerState) (now : Nat) (u : String) (h : ReachableAny s) :
      ReachableAny (decline_call s now u).1
  | endc (s : ServerState) (now : Nat) (u : String) (h : ReachableAny s) :
      ReachableAny (end_call s now u).1

/-- States reachable from the empty registry when every registration
uses a fresh (not currently connected) non-empty id, which is how the
server produces ids (uuid4 strings, one session per user). -/
inductive Reachable : ServerState → Prop
  | init : Reachable emptyState
  | add (s : ServerState) (now tnow : Nat) (u username : String)
      (avatar : Option String) (hne : u ≠ "")
      (hfresh : dictGet s.connected_users u = none) (h : Reachable s) :
      Reachable (add_connected_user s now tnow u username avatar).1
  | remove (s : ServerState) (u : String) (h : Reachable s) :
      Reachable (remove_connected_user s u).1
  | initiate (s : ServerState) (now : Nat) (a b : String)
      (h : Reachable s) : Reachable (initiate_call s now a b).1
  | accept (s : ServerState) (now : Nat) (u : String) (h : Reachable s) :
      Reachable (accept_call s now u).1
  | decline (s : ServerState) (now : Nat) (u : String) (h : Reachable s) :
      Reachable (decline_call s now u).1
  | endc (s : ServerState) (now : Nat) (u : String) (h : Reachable s) :
      Reachable (end_call s now u).1

theorem reachable_invU (s : ServerState) (h : Reachable s) :
    InvU s.connected_users := by
  induction h with
  | init => exact invU_nil
  | add s now tnow u username avatar hne hfresh h ih =>
    exact invU_add_op s now tnow u username avatar hne hfresh ih
  | remove s u h ih => exact invU_remove_op s u ih
  | initiate s now a b h ih => exact invU_initiate_op s now a b ih
  | accept s now u h ih => exact invU_accept_op s now u ih
  | decline s now u h ih => exact invU_decline_op s now u ih
  | endc s now u h ih => exact invU_end_op s now u ih

/-- The in-call state produced by: add a, add b, initiate a to b,
accept by b, then a second add of a while the call is still up. -/
def sBad : ServerState :=
  (add_connected_user (accept_call (initiate_call (add_connected_user
    (add_connected_user emptyState 0 0 "a" "Alice" none).1 0 0 "b" "Bob"
    none).1 0 "a" "b").1 0 "b").1 0 0 "a" "Alice" none).1

/-- C4 counterexample: with add taken as the code implements it, a
second registration of a mid-call peer resets that peer to disponible
without releasing its partner, so the reachable state sBad has b still
pointing at a (status en_llamada) while no entry of a points back: the
claimed invariant is false over the operations as implemented. -/
theorem symmetry_invariant_cex :
    ReachableAny sBad ∧
      dictGet sBad.connected_users "b" =
        some ⟨"Bob", none, "en_llamada", some "a", 0, 0, 0⟩ ∧
      ¬ ∃ pe, dictGet sBad.connected_users "a" = some pe ∧
          pe.in_call_with = some "b" := by
  refine ⟨?_, by decide, ?_⟩
  · exact ReachableAny.add _ 0 0 "a" "Alice" none
      (ReachableAny.accept _ 0 "b" (ReachableAny.initiate _ 0 "a" "b"
        (ReachableAny.add _ 0 0 "b" "Bob" none
          (ReachableAny.add _ 0 0 "a" "Alice" none ReachableAny.init))))
  · rintro ⟨pe, hpe, hpeb⟩
    have h0 : dictGet sBad.connected_users "a" =
        some ⟨"Alice", none, "disponible", none, 0, 0, 0⟩ := by decide
    rw [h0] at hpe
    have hpe2 : pe = ⟨"Alice", none, "disponible", none, 0, 0, 0⟩ :=
      (Option.some.inj hpe).symm
    rw [hpe2] at hpeb
    exact Option.noConfusion hpeb

/-- C4 as amended: over all states reachable from the empty registry by
add of a fresh non-empty id, remove, initiate, accept, decline and end,
the symmetry invariant holds: if a connected peer X has partnerId Y and
a status other than disponible, then Y is connected and the partnerId
of Y is X. -/
theorem symmetry_invariant_reachable (s : ServerState) (h : Reachable s)
    (x : String) (e : UserEntry) (y : String)
    (hx : dictGet s.connected_users x = some e)
    (hy : e.in_call_with = some y) (hst : e.status ≠ "disponible") :
    ∃ ye, dictGet s.connected_users y = some ye ∧
      ye.in_call_with = some x :=
  (reachable_invU s h).sym x e y hx hy hst

/-- The in-call state produced legitimately: add a, add b, initiate a
to b. -/
def sChain : ServerState :=
  (initiate_call (add_connected_user (add_connected_user emptyState 0 0 "a"
    "Alice" none).1 0 0 "b" "Bob" none).1 0 "a" "b").1

/-- C4 witness: the amended invariant applied to the concrete reachable
state in which a is calling b. -/
theorem symmetry_invariant_reachable_witness :
    ∃ ye, dictGet sChain.connected_users "b" = some ye ∧
      ye.in_call_with = some "a" := by
  have hreach : Reachable sChain :=
    Reachable.initiate _ 0 "a" "b"
      (Reachable.add _ 0 0 "b" "Bob" none (by decide) (by decide)
        (Reachable.add _ 0 0 "a" "Alice" none (by decide) (by decide)
          Reachable.init))
  exact symmetry_invariant_reachable sChain hreach "a"
    ⟨"Alice", none, "llamando", some "b", 0, 0, 0⟩ "b"
    (by decide) rfl (by decide)
